import Mathlib

/-!
Shallow embedding of the Score-Counter mutation engine
(src/supabase/schema.sql): tables `scores` and `score_actions`, the
rate-limit helper and the five RPC functions `increment_team`,
`decrement_team`, `reset_team`, `reset_all`, `undo_last_action`.

Timestamps are modelled as integers (seconds); each call is passed the
value of NOW() at which it runs.  The scores table is an association
list from team name to score (team is the PRIMARY KEY, so reachable
states have pairwise distinct keys); the action log is the list of
inserted rows in insertion order.
-/

namespace ScoreCounter

/-- One row of the score_actions table (schema.sql, CREATE TABLE score_actions).
Row ids are modelled as consecutive naturals instead of UUIDs. -/
structure ActionRecord where
  id : Nat
  team : String
  delta : Int
  prev_score : Int
  new_score : Int
  client_id : String
  action_type : String
  reverts_action_id : Option Nat
  undone : Bool
  undone_at : Option Int
  created_at : Int
  deriving Repr, DecidableEq

/-- The database state: the scores table, the score_actions table, and the
next fresh action id. -/
structure DBState where
  scores : List (String × Int)
  actions : List ActionRecord
  nextId : Nat
  deriving Repr, DecidableEq

/-- Seed data: the four teams at 0 (schema.sql, INSERT INTO scores). -/
def initState : DBState :=
  { scores := [("blue", 0), ("green", 0), ("yellow", 0), ("red", 0)],
    actions := [], nextId := 0 }

/-- SELECT score FROM scores WHERE team = t. -/
def lookupScore : List (String × Int) → String → Option Int
  | [], _ => none
  | (u, s) :: rest, t => if u = t then some s else lookupScore rest t

/-- UPDATE scores SET score = v WHERE team = t. -/
def updateScore (scores : List (String × Int)) (t : String) (v : Int) :
    List (String × Int) :=
  scores.map (fun p => if p.1 = t then (p.1, v) else p)

/-- rate_limit_max constant of check_rate_limit. -/
def rateLimitMax : Nat := 5

/-- rate_limit_window constant of check_rate_limit, in seconds. -/
def rateLimitWindow : Int := 10

/-- Predicate of the COUNT(*) filter in check_rate_limit: rows by this
client with created_at > NOW() - rate_limit_window. -/
def inRateWindow (now : Int) (c : String) (a : ActionRecord) : Bool :=
  a.client_id == c && decide (now - rateLimitWindow < a.created_at)

/-- check_rate_limit: TRUE iff the client already has at least
rate_limit_max actions inside the trailing window. -/
def check_rate_limit (st : DBState) (now : Int) (p_client_id : String) : Bool :=
  decide (rateLimitMax ≤ (st.actions.filter (inRateWindow now p_client_id)).length)

/-- GREATEST(1, LEAST(p_amount, 100)) - the clamp applied by
increment_team and decrement_team. -/
def clampAmount (p_amount : Int) : Int := max 1 (min p_amount 100)

/-- The JSON results built by the RPC functions, one constructor per
distinct json_build_object shape. -/
inductive OpResult where
  | failure (error : String)
  | scoreSuccess (team : String) (prev_score new_score : Int) (action_id : Nat)
  | messageSuccess (team : String) (message : String)
  | resetAllSuccess (teams_reset : Nat)
  | undoSuccess (team : String) (prev_score new_score : Int)
      (reverted_action_id undo_action_id : Nat)
  deriving Repr, DecidableEq

def rateLimitedError : String := "Rate limited. Please wait a few seconds."

def notFoundError : String := "Team not found"

def alreadyZeroError : String := "Score is already at 0"

def noUndoableError : String := "No undoable action found (must be within 60 seconds)"

def alreadyZeroMessage : String := "Score is already 0"

/-- increment_team(p_team, p_client_id, p_amount). -/
def increment_team (st : DBState) (now : Int) (p_team p_client_id : String)
    (p_amount : Int) : OpResult × DBState :=
  let v_amount := clampAmount p_amount
  if check_rate_limit st now p_client_id then
    (.failure rateLimitedError, st)
  else
    match lookupScore st.scores p_team with
    | none => (.failure notFoundError, st)
    | some v_prev_score =>
      let v_new_score := v_prev_score + v_amount
      (.scoreSuccess p_team v_prev_score v_new_score st.nextId,
       { scores := updateScore st.scores p_team v_new_score,
         actions := st.actions ++
           [{ id := st.nextId, team := p_team, delta := v_amount,
              prev_score := v_prev_score, new_score := v_new_score,
              client_id := p_client_id, action_type := "increment",
              reverts_action_id := none, undone := false, undone_at := none,
              created_at := now }],
         nextId := st.nextId + 1 })

/-- decrement_team(p_team, p_client_id, p_amount) - floor at 0, logs the
actual (applied) delta, fails when the score is already 0. -/
def decrement_team (st : DBState) (now : Int) (p_team p_client_id : String)
    (p_amount : Int) : OpResult × DBState :=
  let v_amount := clampAmount p_amount
  if check_rate_limit st now p_client_id then
    (.failure rateLimitedError, st)
  else
    match lookupScore st.scores p_team with
    | none => (.failure notFoundError, st)
    | some v_prev_score =>
      let v_new_score := max (v_prev_score - v_amount) 0
      let v_actual_delta := v_prev_score - v_new_score
      if v_actual_delta = 0 then
        (.failure alreadyZeroError, st)
      else
        (.scoreSuccess p_team v_prev_score v_new_score st.nextId,
         { scores := updateScore st.scores p_team v_new_score,
           actions := st.actions ++
             [{ id := st.nextId, team := p_team, delta := -v_actual_delta,
                prev_score := v_prev_score, new_score := v_new_score,
                client_id := p_client_id, action_type := "decrement",
                reverts_action_id := none, undone := false, undone_at := none,
                created_at := now }],
           nextId := st.nextId + 1 })

/-- reset_team(p_team, p_client_id) - already-0 is a success with a
message and no log entry. -/
def reset_team (st : DBState) (now : Int) (p_team p_client_id : String) :
    OpResult × DBState :=
  if check_rate_limit st now p_client_id then
    (.failure rateLimitedError, st)
  else
    match lookupScore st.scores p_team with
    | none => (.failure notFoundError, st)
    | some v_prev_score =>
      if v_prev_score = 0 then
        (.messageSuccess p_team alreadyZeroMessage, st)
      else
        (.scoreSuccess p_team v_prev_score 0 st.nextId,
         { scores := updateScore st.scores p_team 0,
           actions := st.actions ++
             [{ id := st.nextId, team := p_team, delta := -v_prev_score,
                prev_score := v_prev_score, new_score := 0,
                client_id := p_client_id, action_type := "reset",
                reverts_action_id := none, undone := false, undone_at := none,
                created_at := now }],
           nextId := st.nextId + 1 })

/-- The FOR loop body of reset_all: for each selected row, zero the score
and insert one log entry; count the rows processed. -/
def resetLoop (p_client_id : String) (now : Int) :
    List (String × Int) → DBState → Nat → DBState × Nat
  | [], st, n => (st, n)
  | (t, s) :: rest, st, n =>
      resetLoop p_client_id now rest
        { scores := updateScore st.scores t 0,
          actions := st.actions ++
            [{ id := st.nextId, team := t, delta := -s, prev_score := s,
               new_score := 0, client_id := p_client_id,
               action_type := "reset_all", reverts_action_id := none,
               undone := false, undone_at := none, created_at := now }],
          nextId := st.nextId + 1 } (n + 1)

/-- reset_all(p_client_id): loop over the rows with score > 0. -/
def reset_all (st : DBState) (now : Int) (p_client_id : String) :
    OpResult × DBState :=
  if check_rate_limit st now p_client_id then
    (.failure rateLimitedError, st)
  else
    let r := resetLoop p_client_id now
      (st.scores.filter (fun p => decide (0 < p.2))) st 0
    (.resetAllSuccess r.2, r.1)

/-- v_undo_window constant of undo_last_action, in seconds. -/
def undoWindow : Int := 60

/-- The WHERE clause of the undoable-action query: same client, not yet
undone, not itself an undo, created inside the trailing window. -/
def undoEligible (now : Int) (c : String) (a : ActionRecord) : Bool :=
  a.client_id == c && a.undone == false && a.action_type != "undo" &&
    decide (now - undoWindow < a.created_at)

/-- ORDER BY created_at DESC LIMIT 1 over a list of rows; on equal
timestamps the later row in insertion order is taken. -/
def pickLatest : List ActionRecord → Option ActionRecord
  | [] => none
  | a :: rest =>
    match pickLatest rest with
    | none => some a
    | some b => if a.created_at ≤ b.created_at then some b else some a

/-- undo_last_action(p_client_id): revert the most recent eligible action
(floor at 0), mark it undone, and log an undo record carrying
delta = -(recorded delta).  The team of a logged action always exists in
scores (foreign key), so the not-found branch is unreachable from
reachable states. -/
def undo_last_action (st : DBState) (now : Int) (p_client_id : String) :
    OpResult × DBState :=
  if check_rate_limit st now p_client_id then
    (.failure rateLimitedError, st)
  else
    match pickLatest (st.actions.filter (undoEligible now p_client_id)) with
    | none => (.failure noUndoableError, st)
    | some v_action =>
      match lookupScore st.scores v_action.team with
      | none => (.failure notFoundError, st)
      | some v_current_score =>
        let v_new_score := max (v_current_score - v_action.delta) 0
        (.undoSuccess v_action.team v_current_score v_new_score
           v_action.id st.nextId,
         { scores := updateScore st.scores v_action.team v_new_score,
           actions :=
             (st.actions.map (fun a =>
               if a.id = v_action.id then
                 { a with undone := true, undone_at := some now }
               else a)) ++
             [{ id := st.nextId, team := v_action.team,
                delta := -v_action.delta, prev_score := v_current_score,
                new_score := v_new_score, client_id := p_client_id,
                action_type := "undo", reverts_action_id := some v_action.id,
                undone := false, undone_at := none, created_at := now }],
           nextId := st.nextId + 1 })

/-- One call to any of the five RPC functions. -/
inductive Op where
  | increment (team client : String) (amount : Int)
  | decrement (team client : String) (amount : Int)
  | resetOne (team client : String)
  | resetAllOp (client : String)
  | undoOp (client : String)
  deriving Repr, DecidableEq

/-- The client id an operation acts for. -/
def Op.client : Op → String
  | .increment _ c _ => c
  | .decrement _ c _ => c
  | .resetOne _ c => c
  | .resetAllOp c => c
  | .undoOp c => c

/-- Dispatch one call at time now. -/
def applyOp (st : DBState) (now : Int) : Op → OpResult × DBState
  | .increment t c a => increment_team st now t c a
  | .decrement t c a => decrement_team st now t c a
  | .resetOne t c => reset_team st now t c
  | .resetAllOp c => reset_all st now c
  | .undoOp c => undo_last_action st now c

/-- States reachable from the seeded state by any sequence of calls. -/
inductive Reachable : DBState → Prop where
  | init : Reachable initState
  | step (st : DBState) (now : Int) (op : Op) :
      Reachable st → Reachable (applyOp st now op).2

end ScoreCounter

namespace ScoreCounter

theorem clampAmount_pos (a : Int) : 1 ≤ clampAmount a := le_max_left 1 _

theorem lookupScore_mem {scores : List (String × Int)} {t : String} {s : Int}
    (h : lookupScore scores t = some s) : (t, s) ∈ scores := by
  induction scores with
  | nil => simp [lookupScore] at h
  | cons p rest ih =>
      obtain ⟨u, v⟩ := p
      simp only [lookupScore] at h
      split at h
      · next heq =>
          obtain rfl := heq
          obtain rfl : v = s := by injection h
          exact List.mem_cons_self _ _
      · exact List.mem_cons_of_mem _ (ih h)

theorem updateScore_nonneg {scores : List (String × Int)} {t : String} {v : Int}
    (hall : ∀ p ∈ scores, 0 ≤ p.2) (hv : 0 ≤ v) :
    ∀ p ∈ updateScore scores t v, 0 ≤ p.2 := by
  intro p hp
  simp only [updateScore, List.mem_map] at hp
  obtain ⟨q, hq, rfl⟩ := hp
  split
  · exact hv
  · exact hall q hq

theorem resetLoop_nonneg (c : String) (now : Int) :
    ∀ (rows : List (String × Int)) (st : DBState) (n : Nat),
      (∀ p ∈ st.scores, 0 ≤ p.2) →
      ∀ p ∈ (resetLoop c now rows st n).1.scores, 0 ≤ p.2 := by
  intro rows
  induction rows with
  | nil => intro st n h; simpa [resetLoop] using h
  | cons q rest ih =>
      intro st n h
      obtain ⟨t, s⟩ := q
      simp only [resetLoop]
      exact ih _ _ (updateScore_nonneg h le_rfl)

theorem step_nonneg (st : DBState) (now : Int) (op : Op)
    (h : ∀ p ∈ st.scores, 0 ≤ p.2) :
    ∀ p ∈ (applyOp st now op).2.scores, 0 ≤ p.2 := by
  cases op with
  | increment t c a =>
      simp only [applyOp, increment_team]
      split
      · exact h
      · cases hl : lookupScore st.scores t with
        | none => simpa using h
        | some s =>
            have hs := h _ (lookupScore_mem hl)
            have hamt := clampAmount_pos a
            simp only
            exact updateScore_nonneg h (by simp at hs; omega)
  | decrement t c a =>
      simp only [applyOp, decrement_team]
      split
      · exact h
      · cases hl : lookupScore st.scores t with
        | none => simpa using h
        | some s =>
            simp only
            split
            · exact h
            · exact updateScore_nonneg h (le_max_right _ _)
  | resetOne t c =>
      simp only [applyOp, reset_team]
      split
      · exact h
      · cases hl : lookupScore st.scores t with
        | none => simpa using h
        | some s =>
            simp only
            split
            · exact h
            · exact updateScore_nonneg h le_rfl
  | resetAllOp c =>
      simp only [applyOp, reset_all]
      split
      · exact h
      · exact resetLoop_nonneg c now _ st 0 h
  | undoOp c =>
      simp only [applyOp, undo_last_action]
      split
      · exact h
      · cases hp : pickLatest (st.actions.filter (undoEligible now c)) with
        | none => simpa using h
        | some a =>
            simp only
            cases hl : lookupScore st.scores a.team with
            | none => simpa using h
            | some s =>
                simp only
                exact updateScore_nonneg h (le_max_right _ _)

/-- C3: in every state reachable from the seeded state by any sequence of
the five operations, every row of the scores table has a non-negative
score; no operation ever writes a negative value. -/
theorem reachable_scores_nonneg (st : DBState) (h : Reachable st) :
    ∀ p ∈ st.scores, 0 ≤ p.2 := by
  induction h with
  | init => decide
  | step st2 now op _ ih => exact step_nonneg st2 now op ih

/-- Witness for C3: after one increment of 5 on team blue, the blue row
holds 5 and the invariant instance evaluates to 0 ≤ 5. -/
theorem reachable_scores_nonneg_witness : (0 : Int) ≤ 5 :=
  reachable_scores_nonneg (applyOp initState 0 (.increment "blue" "c1" 5)).2
    (Reachable.step initState 0 _ Reachable.init) ("blue", 5) (by decide)

end ScoreCounter

namespace ScoreCounter

theorem rate_limited_denied (st : DBState) (now : Int) (op : Op)
    (h : check_rate_limit st now op.client = true) :
    applyOp st now op = (.failure rateLimitedError, st) := by
  cases op <;> simp_all [applyOp, increment_team, decrement_team, reset_team,
    reset_all, undo_last_action, Op.client]

theorem admitted_not_denied (st : DBState) (now : Int) (op : Op)
    (h : check_rate_limit st now op.client = false) :
    (applyOp st now op).1 ≠ .failure rateLimitedError := by
  cases op with
  | increment t c a =>
      simp only [Op.client] at h
      simp only [applyOp, increment_team, h, Bool.false_eq_true, if_false]
      cases hl : lookupScore st.scores t <;>
        simp [notFoundError, rateLimitedError]
  | decrement t c a =>
      simp only [Op.client] at h
      simp only [applyOp, decrement_team, h, Bool.false_eq_true, if_false]
      cases hl : lookupScore st.scores t with
      | none => simp [notFoundError, rateLimitedError]
      | some s =>
          simp only
          split <;> simp [alreadyZeroError, rateLimitedError]
  | resetOne t c =>
      simp only [Op.client] at h
      simp only [applyOp, reset_team, h, Bool.false_eq_true, if_false]
      cases hl : lookupScore st.scores t with
      | none => simp [notFoundError, rateLimitedError]
      | some s =>
          simp only
          split <;> simp
  | resetAllOp c =>
      simp only [Op.client] at h
      simp [applyOp, reset_all, h]
  | undoOp c =>
      simp only [Op.client] at h
      simp only [applyOp, undo_last_action, h, Bool.false_eq_true, if_false]
      cases hp : pickLatest (st.actions.filter (undoEligible now c)) with
      | none => simp [noUndoableError, rateLimitedError]
      | some a =>
          simp only
          cases hl : lookupScore st.scores a.team <;>
            simp [notFoundError, rateLimitedError]

/-- C4: every one of the five operations is gated by the sliding-window
rate limit: a client with at least 5 logged actions created inside the
trailing 10-second window gets the rate-limited failure and the state is
unchanged (zero writes); a client with fewer than 5 such records is
admitted past the limiter (its result is never the rate-limited
failure). -/
theorem rate_limit_gates_every_op (st : DBState) (now : Int) (op : Op) :
    (rateLimitMax ≤ (st.actions.filter (inRateWindow now op.client)).length →
       applyOp st now op = (.failure rateLimitedError, st)) ∧
    ((st.actions.filter (inRateWindow now op.client)).length < rateLimitMax →
       (applyOp st now op).1 ≠ .failure rateLimitedError) := by
  constructor
  · intro hcount
    exact rate_limited_denied st now op (by simp [check_rate_limit, hcount])
  · intro hcount
    refine admitted_not_denied st now op ?_
    simp only [check_rate_limit, decide_eq_false_iff_not]
    omega

/-- A client that has just made five calls: five increments by c1 at
times 0 to 4. -/
def rateLimitedState : DBState :=
  (applyOp (applyOp (applyOp (applyOp (applyOp initState 0
    (.increment "blue" "c1" 1)).2 1 (.increment "blue" "c1" 1)).2 2
    (.increment "blue" "c1" 1)).2 3 (.increment "blue" "c1" 1)).2 4
    (.increment "blue" "c1" 1)).2

/-- Witness for C4: with five actions by c1 inside the window, the sixth
call at time 4 is denied with no state change; on the empty log the same
call is admitted. -/
theorem rate_limit_gates_every_op_witness :
    applyOp rateLimitedState 4 (Op.increment "blue" "c1" 1) =
      (OpResult.failure rateLimitedError, rateLimitedState) ∧
    (applyOp initState 0 (Op.increment "blue" "c1" 1)).1 ≠
      OpResult.failure rateLimitedError :=
  ⟨(rate_limit_gates_every_op rateLimitedState 4 _).1 (by decide),
   (rate_limit_gates_every_op initState 0 _).2 (by decide)⟩

end ScoreCounter

namespace ScoreCounter

/-- C5: for a known team and an admitted client, increment_team succeeds
and raises the counter by exactly clampAmount amount = clamp(amount,1,100)
(which is amount on [1,100], 100 above the cap, 1 below it); it logs one
increment record whose delta is the clamped amount and reports
prev_score and new_score = prev_score + clamped amount. -/
theorem increment_team_clamps_and_logs (st : DBState) (now : Int)
    (t c : String) (amount s : Int)
    (hAdm : check_rate_limit st now c = false)
    (hscore : lookupScore st.scores t = some s) :
    increment_team st now t c amount =
      (.scoreSuccess t s (s + clampAmount amount) st.nextId,
       { scores := updateScore st.scores t (s + clampAmount amount),
         actions := st.actions ++
           [{ id := st.nextId, team := t, delta := clampAmount amount,
              prev_score := s, new_score := s + clampAmount amount,
              client_id := c, action_type := "increment",
              reverts_action_id := none, undone := false, undone_at := none,
              created_at := now }],
         nextId := st.nextId + 1 }) ∧
    (1 ≤ amount → amount ≤ 100 → clampAmount amount = amount) ∧
    (100 < amount → clampAmount amount = 100) ∧
    (amount < 1 → clampAmount amount = 1) := by
  refine ⟨?_, ?_, ?_, ?_⟩
  · simp [increment_team, hAdm, hscore]
  · intro h1 h2; simp only [clampAmount]; omega
  · intro h; simp only [clampAmount]; omega
  · intro h; simp only [clampAmount]; omega

/-- Witness for C5: incrementing blue by 7 from the seeded state. -/
theorem increment_team_clamps_and_logs_witness :
    increment_team initState 0 "blue" "c1" 7 =
      (.scoreSuccess "blue" 0 (0 + clampAmount 7) initState.nextId,
       { scores := updateScore initState.scores "blue" (0 + clampAmount 7),
         actions := initState.actions ++
           [{ id := initState.nextId, team := "blue", delta := clampAmount 7,
              prev_score := 0, new_score := 0 + clampAmount 7,
              client_id := "c1", action_type := "increment",
              reverts_action_id := none, undone := false, undone_at := none,
              created_at := 0 }],
         nextId := initState.nextId + 1 }) ∧
    (1 ≤ (7 : Int) → (7 : Int) ≤ 100 → clampAmount 7 = 7) ∧
    (100 < (7 : Int) → clampAmount 7 = 100) ∧
    ((7 : Int) < 1 → clampAmount 7 = 1) :=
  increment_team_clamps_and_logs initState 0 "blue" "c1" 7 0
    (by decide) (by decide)

/-- C6: for a known team with positive score and an admitted client,
decrement_team floors at 0: the new score is max(prev - clamped, 0),
never negative, and the logged delta is the negated actual decrease
prev - new, which never exceeds the clamped request. -/
theorem decrement_team_floors_and_logs_actual (st : DBState) (now : Int)
    (t c : String) (amount s : Int)
    (hAdm : check_rate_limit st now c = false)
    (hscore : lookupScore st.scores t = some s) (hpos : 0 < s) :
    decrement_team st now t c amount =
      (.scoreSuccess t s (max (s - clampAmount amount) 0) st.nextId,
       { scores := updateScore st.scores t (max (s - clampAmount amount) 0),
         actions := st.actions ++
           [{ id := st.nextId, team := t,
              delta := -(s - max (s - clampAmount amount) 0),
              prev_score := s, new_score := max (s - clampAmount amount) 0,
              client_id := c, action_type := "decrement",
              reverts_action_id := none, undone := false, undone_at := none,
              created_at := now }],
         nextId := st.nextId + 1 }) ∧
    0 ≤ max (s - clampAmount amount) 0 ∧
    s - max (s - clampAmount amount) 0 ≤ clampAmount amount := by
  have hamt := clampAmount_pos amount
  have hne : ¬ s - max (s - clampAmount amount) 0 = 0 := by omega
  refine ⟨?_, le_max_right _ _, by omega⟩
  simp [decrement_team, hAdm, hscore, hne]

/-- Witness for C6: decrementing blue (at 5) by 10 floors the score at 0
and logs the applied delta -5. -/
theorem decrement_team_floors_and_logs_actual_witness :
    decrement_team (applyOp initState 0 (.increment "blue" "c1" 5)).2 1
        "blue" "c1" 10 =
      (.scoreSuccess "blue" 5 (max (5 - clampAmount 10) 0)
         (applyOp initState 0 (.increment "blue" "c1" 5)).2.nextId,
       { scores := updateScore
           (applyOp initState 0 (.increment "blue" "c1" 5)).2.scores "blue"
           (max (5 - clampAmount 10) 0),
         actions := (applyOp initState 0 (.increment "blue" "c1" 5)).2.actions ++
           [{ id := (applyOp initState 0 (.increment "blue" "c1" 5)).2.nextId,
              team := "blue", delta := -(5 - max (5 - clampAmount 10) 0),
              prev_score := 5, new_score := max (5 - clampAmount 10) 0,
              client_id := "c1", action_type := "decrement",
              reverts_action_id := none, undone := false, undone_at := none,
              created_at := 1 }],
         nextId := (applyOp initState 0 (.increment "blue" "c1" 5)).2.nextId + 1 }) ∧
    0 ≤ max ((5 : Int) - clampAmount 10) 0 ∧
    (5 : Int) - max (5 - clampAmount 10) 0 ≤ clampAmount 10 :=
  decrement_team_floors_and_logs_actual
    (applyOp initState 0 (.increment "blue" "c1" 5)).2 1 "blue" "c1" 10 5
    (by decide) (by decide) (by decide)

end ScoreCounter

namespace ScoreCounter

/-- The log entries a reset_all loop inserts for the selected rows, with
consecutive ids starting at n. -/
def resetRecords (c : String) (now : Int) : Nat → List (String × Int) → List ActionRecord
  | _, [] => []
  | n, (t, s) :: rest =>
      { id := n, team := t, delta := -s, prev_score := s, new_score := 0,
        client_id := c, action_type := "reset_all", reverts_action_id := none,
        undone := false, undone_at := none, created_at := now } ::
      resetRecords c now (n + 1) rest

theorem resetLoop_spec (c : String) (now : Int) :
    ∀ (rows : List (String × Int)) (st : DBState) (n : Nat),
      (resetLoop c now rows st n).1.actions =
        st.actions ++ resetRecords c now st.nextId rows ∧
      (resetLoop c now rows st n).1.scores =
        List.foldl (fun sc p => updateScore sc p.1 0) st.scores rows ∧
      (resetLoop c now rows st n).2 = n + rows.length := by
  intro rows
  induction rows with
  | nil => intro st n; simp [resetLoop, resetRecords]
  | cons q rest ih =>
      intro st n
      obtain ⟨t, s⟩ := q
      simp only [resetLoop, resetRecords]
      obtain ⟨h1, h2, h3⟩ := ih
        { scores := updateScore st.scores t 0,
          actions := st.actions ++
            [{ id := st.nextId, team := t, delta := -s, prev_score := s,
               new_score := 0, client_id := c,
               action_type := "reset_all", reverts_action_id := none,
               undone := false, undone_at := none, created_at := now }],
          nextId := st.nextId + 1 } (n + 1)
      refine ⟨?_, ?_, ?_⟩
      · rw [h1]; simp [List.append_assoc]
      · rw [h2]; simp [List.foldl_cons]
      · rw [h3]; simp [List.length_cons]; omega

theorem foldl_updateScore_zero :
    ∀ (rows scores : List (String × Int)),
      List.foldl (fun sc p => updateScore sc p.1 0) scores rows =
        scores.map (fun p => if p.1 ∈ rows.map Prod.fst then (p.1, 0) else p) := by
  intro rows
  induction rows with
  | nil => intro scores; simp
  | cons q rest ih =>
      intro scores
      simp only [List.foldl_cons]
      rw [ih]
      simp only [updateScore, List.map_map]
      refine List.map_congr_left ?_
      intro p _
      by_cases hpt : p.1 = q.1
      · simp [Function.comp, hpt]
      · simp only [Function.comp]
        rw [if_neg hpt]
        by_cases hm : p.1 ∈ List.map Prod.fst rest
        · simp [hm, List.mem_cons]
        · simp [hm, List.mem_cons, hpt]

theorem resetRecords_map (c : String) (now : Int) :
    ∀ (n : Nat) (rows : List (String × Int)),
      (resetRecords c now n rows).map
          (fun r => (r.team, r.delta, r.prev_score, r.new_score,
            r.client_id, r.action_type)) =
        rows.map (fun p => (p.1, -p.2, p.2, (0 : Int), c, "reset_all")) := by
  intro n rows
  induction rows generalizing n with
  | nil => simp [resetRecords]
  | cons q rest ih =>
      obtain ⟨t, s⟩ := q
      simp [resetRecords, ih]

/-- C7: for an admitted client, reset_all zeroes exactly the rows with a
positive score, leaves the rows at 0 untouched, appends exactly one
reset_all record per affected row carrying the negated previous value,
and reports teams_reset equal to the number of affected rows (0 affected
rows is still a success). -/
theorem reset_all_resets_positive_teams (st : DBState) (now : Int) (c : String)
    (hAdm : check_rate_limit st now c = false)
    (hkeys : (st.scores.map Prod.fst).Nodup) :
    (reset_all st now c).1 =
      .resetAllSuccess (st.scores.filter (fun p => decide (0 < p.2))).length ∧
    (reset_all st now c).2.scores =
      st.scores.map (fun p => if 0 < p.2 then (p.1, 0) else p) ∧
    (reset_all st now c).2.actions =
      st.actions ++ resetRecords c now st.nextId
        (st.scores.filter (fun p => decide (0 < p.2))) ∧
    (resetRecords c now st.nextId
        (st.scores.filter (fun p => decide (0 < p.2)))).map
        (fun r => (r.team, r.delta, r.prev_score, r.new_score,
          r.client_id, r.action_type)) =
      (st.scores.filter (fun p => decide (0 < p.2))).map
        (fun p => (p.1, -p.2, p.2, (0 : Int), c, "reset_all")) := by
  obtain ⟨h1, h2, h3⟩ := resetLoop_spec c now
    (st.scores.filter (fun p => decide (0 < p.2))) st 0
  refine ⟨?_, ?_, ?_, resetRecords_map c now _ _⟩
  · simp [reset_all, hAdm, h3]
  · simp only [reset_all, hAdm, Bool.false_eq_true, if_false]
    rw [h2, foldl_updateScore_zero]
    refine List.map_congr_left ?_
    intro p hp
    by_cases hpos : 0 < p.2
    · have hmem : p.1 ∈ (st.scores.filter (fun q => decide (0 < q.2))).map Prod.fst :=
        List.mem_map_of_mem Prod.fst (List.mem_filter.mpr ⟨hp, by simpa using hpos⟩)
      simp [hmem, hpos]
    · have hmem : p.1 ∉ (st.scores.filter (fun q => decide (0 < q.2))).map Prod.fst := by
        intro hmem
        obtain ⟨q, hq, hq1⟩ := List.mem_map.mp hmem
        have hqmem := List.mem_filter.mp hq
        have : q = p := List.inj_on_of_nodup_map hkeys hqmem.1 hp hq1
        subst this
        exact hpos (by simpa using hqmem.2)
      simp [hmem, hpos]
  · simp only [reset_all, hAdm, Bool.false_eq_true, if_false]
    exact h1

/-- A state with blue at 5 and yellow at 3, reached by two increments. -/
def mixedState : DBState :=
  (applyOp (applyOp initState 0 (.increment "blue" "c1" 5)).2 1
    (.increment "yellow" "c2" 3)).2

/-- Witness for C7: the spec scenario blue:5, green:0, yellow:3, red:0 -
reset_all by c3 reports 2 teams reset, zeroes blue and yellow only, and
appends exactly the two reset_all records. -/
theorem reset_all_resets_positive_teams_witness :
    (reset_all mixedState 2 "c3").1 =
      .resetAllSuccess (mixedState.scores.filter (fun p => decide (0 < p.2))).length ∧
    (reset_all mixedState 2 "c3").2.scores =
      mixedState.scores.map (fun p => if 0 < p.2 then (p.1, 0) else p) ∧
    (reset_all mixedState 2 "c3").2.actions =
      mixedState.actions ++ resetRecords "c3" 2 mixedState.nextId
        (mixedState.scores.filter (fun p => decide (0 < p.2))) ∧
    (resetRecords "c3" 2 mixedState.nextId
        (mixedState.scores.filter (fun p => decide (0 < p.2)))).map
        (fun r => (r.team, r.delta, r.prev_score, r.new_score,
          r.client_id, r.action_type)) =
      (mixedState.scores.filter (fun p => decide (0 < p.2))).map
        (fun p => (p.1, -p.2, p.2, (0 : Int), "c3", "reset_all")) :=
  reset_all_resets_positive_teams mixedState 2 "c3" (by decide) (by decide)

end ScoreCounter

namespace ScoreCounter

theorem pickLatest_eq_none : ∀ {l : List ActionRecord}, pickLatest l = none → l = [] := by
  intro l h
  cases l with
  | nil => rfl
  | cons q rest =>
      exfalso
      cases hp : pickLatest rest with
      | none =>
          simp only [pickLatest, hp] at h
          exact Option.noConfusion h
      | some b =>
          simp only [pickLatest, hp] at h
          split at h <;> simp at h

theorem pickLatest_mem :
    ∀ {l : List ActionRecord} {a : ActionRecord}, pickLatest l = some a → a ∈ l := by
  intro l
  induction l with
  | nil => intro a h; simp [pickLatest] at h
  | cons q rest ih =>
      intro a h
      cases hp : pickLatest rest with
      | none =>
          simp only [pickLatest, hp] at h
          obtain rfl : q = a := by injection h
          exact List.mem_cons_self _ _
      | some b2 =>
          simp only [pickLatest, hp] at h
          split at h
          · obtain rfl : b2 = a := by injection h
            exact List.mem_cons_of_mem _ (ih hp)
          · obtain rfl : q = a := by injection h
            exact List.mem_cons_self _ _

theorem pickLatest_max :
    ∀ {l : List ActionRecord} {a : ActionRecord}, pickLatest l = some a →
      ∀ b ∈ l, b.created_at ≤ a.created_at := by
  intro l
  induction l with
  | nil => intro a h; simp [pickLatest] at h
  | cons q rest ih =>
      intro a h b hb
      cases hp : pickLatest rest with
      | none =>
          simp only [pickLatest, hp] at h
          obtain rfl : q = a := by injection h
          rcases List.mem_cons.mp hb with rfl | hbr
          · exact le_rfl
          · rw [pickLatest_eq_none hp] at hbr
            simp at hbr
      | some b2 =>
          simp only [pickLatest, hp] at h
          split at h
          · next hle =>
              obtain rfl : b2 = a := by injection h
              rcases List.mem_cons.mp hb with rfl | hbr
              · exact hle
              · exact ih hp b hbr
          · next hlt =>
              obtain rfl : q = a := by injection h
              rcases List.mem_cons.mp hb with rfl | hbr
              · exact le_rfl
              · exact le_trans (ih hp b hbr) (le_of_not_le hlt)

theorem undoEligible_iff (now : Int) (c : String) (a : ActionRecord) :
    undoEligible now c a = true ↔
      a.client_id = c ∧ a.undone = false ∧ a.action_type ≠ "undo" ∧
        now - undoWindow < a.created_at := by
  simp [undoEligible, Bool.and_eq_true, decide_eq_true_eq, and_assoc]

theorem undone_persists (st : DBState) (now2 : Int) (op : Op) (b : ActionRecord)
    (hb : b ∈ st.actions) (hu : b.undone = true) :
    ∃ b2 ∈ (applyOp st now2 op).2.actions, b2.id = b.id ∧ b2.undone = true := by
  cases op with
  | increment t c a =>
      simp only [applyOp, increment_team]
      split
      · exact ⟨b, hb, rfl, hu⟩
      · cases hl : lookupScore st.scores t with
        | none => exact ⟨b, hb, rfl, hu⟩
        | some s => exact ⟨b, List.mem_append_left _ hb, rfl, hu⟩
  | decrement t c a =>
      simp only [applyOp, decrement_team]
      split
      · exact ⟨b, hb, rfl, hu⟩
      · cases hl : lookupScore st.scores t with
        | none => exact ⟨b, hb, rfl, hu⟩
        | some s =>
            simp only
            split
            · exact ⟨b, hb, rfl, hu⟩
            · exact ⟨b, List.mem_append_left _ hb, rfl, hu⟩
  | resetOne t c =>
      simp only [applyOp, reset_team]
      split
      · exact ⟨b, hb, rfl, hu⟩
      · cases hl : lookupScore st.scores t with
        | none => exact ⟨b, hb, rfl, hu⟩
        | some s =>
            simp only
            split
            · exact ⟨b, hb, rfl, hu⟩
            · exact ⟨b, List.mem_append_left _ hb, rfl, hu⟩
  | resetAllOp c =>
      simp only [applyOp, reset_all]
      split
      · exact ⟨b, hb, rfl, hu⟩
      · obtain ⟨h1, _, _⟩ := resetLoop_spec c now2
          (st.scores.filter (fun p => decide (0 < p.2))) st 0
        rw [h1]
        exact ⟨b, List.mem_append_left _ hb, rfl, hu⟩
  | undoOp c =>
      simp only [applyOp, undo_last_action]
      split
      · exact ⟨b, hb, rfl, hu⟩
      · cases hp : pickLatest (st.actions.filter (undoEligible now2 c)) with
        | none => exact ⟨b, hb, rfl, hu⟩
        | some a =>
            simp only
            cases hl : lookupScore st.scores a.team with
            | none => exact ⟨b, hb, rfl, hu⟩
            | some s =>
                refine ⟨if b.id = a.id then
                    { b with undone := true, undone_at := some now2 }
                  else b, ?_, ?_, ?_⟩
                · exact List.mem_append_left _
                    (List.mem_map_of_mem
                      (fun x => if x.id = a.id then
                        { x with undone := true, undone_at := some now2 }
                      else x) hb)
                · split <;> rfl
                · split <;> simp [hu]

/-- C8: undo_last_action for an admitted client: when no record of this
client is eligible (not undone, not itself an undo, created inside the
trailing 60-second window) the call fails with the no-undoable-action
error and changes nothing; otherwise it selects an eligible record of
maximal created_at - never an already-undone or too-old record - and on
success marks that record undone and appends the undo record; once a
record is undone it stays undone under every further operation, so no
record is reverted twice. -/
theorem undo_selects_latest_eligible (st : DBState) (now : Int) (c : String)
    (hAdm : check_rate_limit st now c = false) :
    (st.actions.filter (undoEligible now c) = [] →
       undo_last_action st now c = (.failure noUndoableError, st)) ∧
    (∀ a, pickLatest (st.actions.filter (undoEligible now c)) = some a →
       a ∈ st.actions ∧ a.client_id = c ∧ a.undone = false ∧
       a.action_type ≠ "undo" ∧ now - undoWindow < a.created_at ∧
       (∀ b ∈ st.actions, b.client_id = c → b.undone = false →
          b.action_type ≠ "undo" → now - undoWindow < b.created_at →
          b.created_at ≤ a.created_at)) ∧
    (∀ b ∈ st.actions, b.undone = true →
       pickLatest (st.actions.filter (undoEligible now c)) ≠ some b) ∧
    (∀ a s, pickLatest (st.actions.filter (undoEligible now c)) = some a →
       lookupScore st.scores a.team = some s →
       undo_last_action st now c =
         (.undoSuccess a.team s (max (s - a.delta) 0) a.id st.nextId,
          { scores := updateScore st.scores a.team (max (s - a.delta) 0),
            actions := (st.actions.map (fun b =>
              if b.id = a.id then { b with undone := true, undone_at := some now }
              else b)) ++
              [{ id := st.nextId, team := a.team, delta := -a.delta,
                 prev_score := s, new_score := max (s - a.delta) 0,
                 client_id := c, action_type := "undo",
                 reverts_action_id := some a.id, undone := false,
                 undone_at := none, created_at := now }],
            nextId := st.nextId + 1 })) ∧
    (∀ (op : Op) (now2 : Int) (b : ActionRecord), b ∈ st.actions →
       b.undone = true →
       ∃ b2 ∈ (applyOp st now2 op).2.actions, b2.id = b.id ∧ b2.undone = true) := by
  refine ⟨?_, ?_, ?_, ?_, fun op now2 b hb hu => undone_persists st now2 op b hb hu⟩
  · intro hfilter
    simp [undo_last_action, hAdm, hfilter, pickLatest]
  · intro a ha
    have hmem := pickLatest_mem ha
    have hel := (List.mem_filter.mp hmem).2
    obtain ⟨h1, h2, h3, h4⟩ := (undoEligible_iff now c a).mp hel
    refine ⟨(List.mem_filter.mp hmem).1, h1, h2, h3, h4, ?_⟩
    intro b hb hb1 hb2 hb3 hb4
    exact pickLatest_max ha b
      (List.mem_filter.mpr ⟨hb, (undoEligible_iff now c b).mpr ⟨hb1, hb2, hb3, hb4⟩⟩)
  · intro b hb hu hpick
    have hel := (List.mem_filter.mp (pickLatest_mem hpick)).2
    have h2 := ((undoEligible_iff now c b).mp hel).2.1
    rw [hu] at h2
    exact Bool.noConfusion h2
  · intro a s hpick hl
    simp [undo_last_action, hAdm, hpick, hl]

end ScoreCounter

namespace ScoreCounter

/-- The spec scenario prefix: c1 increments blue by 5 at time 0, then
decrements blue by 10 at time 1 (floored to 0, applied delta -5). -/
def undoScenario : DBState :=
  (applyOp (applyOp initState 0 (.increment "blue" "c1" 5)).2 1
    (.decrement "blue" "c1" 10)).2

/-- The decrement record of undoScenario, the most recent eligible
action of c1 at time 2. -/
def undoTarget : ActionRecord :=
  { id := 1, team := "blue", delta := -5, prev_score := 5, new_score := 0,
    client_id := "c1", action_type := "decrement", reverts_action_id := none,
    undone := false, undone_at := none, created_at := 1 }

/-- Witness for C8: a client with no logged action gets the
no-undoable-action failure with no writes, and c1 undoing after the
floored decrement reverts that decrement, marks it undone and appends
the undo record. -/
theorem undo_selects_latest_eligible_witness :
    undo_last_action initState 0 "c9" = (OpResult.failure noUndoableError, initState) ∧
    undo_last_action undoScenario 2 "c1" =
      (OpResult.undoSuccess undoTarget.team 0 (max ((0 : Int) - undoTarget.delta) 0)
         undoTarget.id undoScenario.nextId,
       { scores := updateScore undoScenario.scores undoTarget.team
           (max ((0 : Int) - undoTarget.delta) 0),
         actions := (undoScenario.actions.map (fun b =>
           if b.id = undoTarget.id then { b with undone := true, undone_at := some 2 }
           else b)) ++
           [{ id := undoScenario.nextId, team := undoTarget.team,
              delta := -undoTarget.delta, prev_score := 0,
              new_score := max ((0 : Int) - undoTarget.delta) 0,
              client_id := "c1", action_type := "undo",
              reverts_action_id := some undoTarget.id, undone := false,
              undone_at := none, created_at := 2 }],
         nextId := undoScenario.nextId + 1 }) :=
  ⟨(undo_selects_latest_eligible initState 0 "c9" (by decide)).1 (by decide),
   (undo_selects_latest_eligible undoScenario 2 "c1" (by decide)).2.2.2.1
     undoTarget 0 (by decide) (by decide)⟩

/-- C9: for an admitted client and a team whose score is already 0,
decrement_team fails with the already-at-0 error and performs no writes,
while reset_team succeeds with a message result and likewise performs no
writes. -/
theorem zero_state_decrement_fails_reset_succeeds (st : DBState) (now : Int)
    (t c : String) (amount : Int)
    (hAdm : check_rate_limit st now c = false)
    (hscore : lookupScore st.scores t = some 0) :
    decrement_team st now t c amount = (.failure alreadyZeroError, st) ∧
    reset_team st now t c = (.messageSuccess t alreadyZeroMessage, st) := by
  have hamt := clampAmount_pos amount
  constructor
  · have hne : (0 : Int) - max (0 - clampAmount amount) 0 = 0 := by omega
    simp [decrement_team, hAdm, hscore, hne]
    omega
  · simp [reset_team, hAdm, hscore]

/-- Witness for C9: on the seeded state (blue at 0), decrement fails and
reset succeeds with the message, both leaving the state unchanged. -/
theorem zero_state_decrement_fails_reset_succeeds_witness :
    decrement_team initState 0 "blue" "c1" 3 =
      (.failure alreadyZeroError, initState) ∧
    reset_team initState 0 "blue" "c1" =
      (.messageSuccess "blue" alreadyZeroMessage, initState) :=
  zero_state_decrement_fails_reset_succeeds initState 0 "blue" "c1" 3
    (by decide) (by decide)

end ScoreCounter

namespace ScoreCounter

theorem resetRecords_fields (c : String) (now : Int) :
    ∀ (n : Nat) (rows : List (String × Int)),
      ∀ r ∈ resetRecords c now n rows, r.client_id = c ∧ r.created_at = now := by
  intro n rows
  induction rows generalizing n with
  | nil => simp [resetRecords]
  | cons q rest ih =>
      obtain ⟨t, s⟩ := q
      intro r hr
      rcases List.mem_cons.mp hr with rfl | hr2
      · exact ⟨rfl, rfl⟩
      · exact ih (n + 1) r hr2

theorem resetRecords_length (c : String) (now : Int) :
    ∀ (n : Nat) (rows : List (String × Int)),
      (resetRecords c now n rows).length = rows.length := by
  intro n rows
  induction rows generalizing n with
  | nil => simp [resetRecords]
  | cons q rest ih =>
      obtain ⟨t, s⟩ := q
      simp [resetRecords, ih]

/-- C10: an admitted reset_all inserts one record per affected team, all
carrying the caller's client id and the call's timestamp, so they all
count toward the caller's 10-second window: whenever the number of
affected teams plus the caller's records still inside the window reaches
the cap of 5, the caller's next operation inside the window is denied as
rate-limited with no state change. -/
theorem reset_all_records_feed_rate_limit (st : DBState) (now now2 : Int)
    (c : String) (op : Op)
    (hAdm : check_rate_limit st now c = false)
    (hclient : op.client = c)
    (hwin : now2 - rateLimitWindow < now)
    (hsum : rateLimitMax ≤ (st.actions.filter (inRateWindow now2 c)).length +
      (st.scores.filter (fun p => decide (0 < p.2))).length) :
    (∀ r ∈ (reset_all st now c).2.actions.drop st.actions.length,
       r.client_id = c ∧ r.created_at = now) ∧
    check_rate_limit (reset_all st now c).2 now2 c = true ∧
    applyOp (reset_all st now c).2 now2 op =
      (.failure rateLimitedError, (reset_all st now c).2) := by
  obtain ⟨h1, h2, h3⟩ := resetLoop_spec c now
    (st.scores.filter (fun p => decide (0 < p.2))) st 0
  have hact : (reset_all st now c).2.actions =
      st.actions ++ resetRecords c now st.nextId
        (st.scores.filter (fun p => decide (0 < p.2))) := by
    simp only [reset_all, hAdm, Bool.false_eq_true, if_false]
    exact h1
  have hdrop : (reset_all st now c).2.actions.drop st.actions.length =
      resetRecords c now st.nextId (st.scores.filter (fun p => decide (0 < p.2))) := by
    rw [hact, List.drop_left]
  have hfields := resetRecords_fields c now st.nextId
    (st.scores.filter (fun p => decide (0 < p.2)))
  have hcheck : check_rate_limit (reset_all st now c).2 now2 c = true := by
    have hall : ∀ r ∈ resetRecords c now st.nextId
        (st.scores.filter (fun p => decide (0 < p.2))),
        inRateWindow now2 c r = true := by
      intro r hr
      obtain ⟨hc, ht⟩ := hfields r hr
      simp [inRateWindow, hc, ht]
      exact hwin
    simp only [check_rate_limit, hact, List.filter_append, List.length_append,
      decide_eq_true_eq]
    rw [List.filter_eq_self.mpr hall, resetRecords_length]
    exact hsum
  refine ⟨fun r hr => hfields r (hdrop ▸ hr), hcheck, ?_⟩
  refine rate_limited_denied _ now2 op ?_
  rw [hclient]
  exact hcheck

/-- Four increments by client c9 at time 0, one per team. -/
def fourUpState : DBState :=
  (applyOp (applyOp (applyOp (applyOp initState 0
    (.increment "blue" "c9" 2)).2 0 (.increment "green" "c9" 2)).2 0
    (.increment "yellow" "c9" 2)).2 0 (.increment "red" "c9" 2)).2

/-- Witness for C10: after four recent actions, a reset_all by c9 at
time 1 affects 4 teams; the combined 8 records inside the window deny
the next call by c9 at time 2. -/
theorem reset_all_records_feed_rate_limit_witness :
    applyOp (reset_all fourUpState 1 "c9").2 2 (Op.increment "blue" "c9" 1) =
      (OpResult.failure rateLimitedError, (reset_all fourUpState 1 "c9").2) :=
  (reset_all_records_feed_rate_limit fourUpState 1 2 "c9"
    (Op.increment "blue" "c9" 1) (by decide) (by decide) (by decide)
    (by decide)).2.2

/-- The scenario exercising the undo floor: c1 increments blue by 5 at
time 0, c2 resets blue at time 1, c1 undoes at time 2.  The undo floors
the score at 0 (applied delta 0) but logs delta -5. -/
def undoFloorScenario : DBState :=
  (applyOp (applyOp (applyOp initState 0 (.increment "blue" "c1" 5)).2
    1 (.resetOne "blue" "c2")).2 2 (.undoOp "c1")).2

/-- C1 (code bug): in the reachable state undoFloorScenario the appended
undo record stores delta -5 while the delta actually applied to the
counter, its new_score - prev_score, is 0: undo_last_action logs the
negated recorded delta even when the floor at 0 shrinks the applied
amount, contradicting the requirement that the log always store the
applied delta. -/
theorem undo_logs_recorded_not_applied_delta :
    Reachable undoFloorScenario ∧
    undoFloorScenario.actions.getLast?.map
      (fun r => (r.action_type, r.delta, r.new_score - r.prev_score)) =
      some ("undo", -5, 0) ∧
    (-5 : Int) ≠ 0 :=
  ⟨Reachable.step _ 2 _ (Reachable.step _ 1 _ (Reachable.step _ 0 _ Reachable.init)),
   by decide, by decide⟩

/-- C2 (code bug): in the reachable state undoFloorScenario the blue
counter is 0 but the seed value 0 plus the sum of all logged deltas for
blue is -5: the replay invariant fails because the undo record carries
the unapplied delta. -/
theorem replay_invariant_violated :
    Reachable undoFloorScenario ∧
    lookupScore undoFloorScenario.scores "blue" = some 0 ∧
    (undoFloorScenario.actions.filter (fun a => a.team == "blue")).foldl
      (fun s a => s + a.delta) 0 = -5 ∧
    ¬ (0 : Int) = 0 + -5 :=
  ⟨Reachable.step _ 2 _ (Reachable.step _ 1 _ (Reachable.step _ 0 _ Reachable.init)),
   by decide, by decide, by decide⟩

end ScoreCounter
